import Mathlib

/-!
Shallow embedding of the ball-simulation engine in `logic.py`
(`git-connect` repository).

Conventions of the embedding:
* Python floats are modelled by exact rationals (`ℚ`); the claims under
  study are structural (ordering of passes, state transfer, clamping,
  comparisons) and are insensitive to floating-point rounding, except for
  `math.hypot`, which is modelled by `ratSqrt` below — an executable
  rational square root that agrees with the mathematical square root
  whenever that root is rational (in particular `ratSqrt q = 0 ↔ q = 0`,
  matching the `length == 0` test in the source).
* Python ints are modelled by `Int`.  Python 3's `round` is
  round-half-to-even (banker's rounding); `avg` below implements exactly
  that on the exact value `(a + b) / 2`, which is what the source computes
  for channel values in the float-exact range.
* Mutable `Ball` objects are modelled by values; Python's `list.remove` /
  `in` use dataclass structural equality, modelled by `List.erase` /
  membership with the derived `DecidableEq`.
-/

/-- `clamp` from `logic.py`: `max(min_value, min(max_value, value))`. -/
def clamp {α : Type} [LinearOrder α] (value min_value max_value : α) : α :=
  max min_value (min max_value value)

/-- The inner `avg` of `mix_colors_rgb`: `int(round((a + b) / 2.0))`.
Python 3 `round` is round-half-to-even, and `(a + b) / 2.0` is either an
integer or a half-integer, so the result is: the exact quotient when
`a + b` is even, otherwise the even one of the two neighbouring integers. -/
def avg (a b : Int) : Int :=
  let s := a + b
  let q := Int.fdiv s 2
  if s % 2 = 0 then q else if q % 2 = 0 then q else q + 1

/-- `mix_colors_rgb` from `logic.py`: per-channel banker's-rounded mean,
each channel clamped to `[0, 255]` after rounding. -/
def mix_colors_rgb (c1 c2 : Int × Int × Int) : Int × Int × Int :=
  (clamp (avg c1.1 c2.1) 0 255,
   clamp (avg c1.2.1 c2.2.1) 0 255,
   clamp (avg c1.2.2 c2.2.2) 0 255)

/-- Round-half-to-even of a rational, as a mathematical definition
independent of `avg` (floor, then adjust on the fractional part,
ties going to the even neighbour). -/
def roundHalfEven (q : ℚ) : Int :=
  let f := ⌊q⌋
  let r := q - (f : ℚ)
  if r < 1/2 then f
  else if 1/2 < r then f + 1
  else if f % 2 = 0 then f else f + 1

/-- Round-half-away-from-zero of a rational (the rounding rule the spec
text asserts for `mixColors`). -/
def roundHalfAway (q : ℚ) : Int :=
  if 0 ≤ q then ⌊q + 1/2⌋ else -⌊-q + 1/2⌋

/-- Executable rational square root: exact whenever the argument is the
square of a non-negative rational (numerator and denominator of a reduced
square are themselves perfect squares).  Models `math.hypot`'s value on
the inputs where exact arithmetic applies. -/
def ratSqrt (q : ℚ) : ℚ :=
  (Nat.sqrt q.num.toNat : ℚ) / (Nat.sqrt q.den : ℚ)

/-- `math.hypot(x, y)` in the exact-rational model. -/
def hypotQ (x y : ℚ) : ℚ := ratSqrt (x * x + y * y)

/-- `Ball` dataclass from `logic.py`. -/
structure Ball where
  id : Nat
  position : ℚ × ℚ
  velocity : ℚ × ℚ
  radius : ℚ
  color : Int × Int × Int
  in_inventory : Bool := false
deriving DecidableEq

/-- `Ball.move`: uniform motion, gated on `in_inventory`. -/
def Ball.move (b : Ball) (dt : ℚ) : Ball :=
  if b.in_inventory then b
  else { b with position :=
          (b.position.1 + b.velocity.1 * dt, b.position.2 + b.velocity.2 * dt) }

/-- `Inventory` dataclass from `logic.py`. -/
structure Inventory where
  balls : List Ball := []
deriving DecidableEq

/-- `Inventory.add_ball`: sets the flag and appends at the tail. -/
def Inventory.add_ball (inv : Inventory) (ball : Ball) : Inventory :=
  ⟨inv.balls ++ [{ ball with in_inventory := true }]⟩

/-- `Inventory.pop_last`: removes and returns the tail ball with the flag
cleared, or `none` when empty. -/
def Inventory.pop_last (inv : Inventory) : Option (Ball × Inventory) :=
  match inv.balls.getLast? with
  | none => none
  | some b => some ({ b with in_inventory := false }, ⟨inv.balls.dropLast⟩)

/-- `DeleteZone` dataclass from `logic.py`. -/
structure DeleteZone where
  x1 : ℚ
  y1 : ℚ
  x2 : ℚ
  y2 : ℚ
deriving DecidableEq

/-- `DeleteZone.contains`: inclusive axis-aligned rectangle test. -/
def DeleteZone.contains (z : DeleteZone) (position : ℚ × ℚ) : Bool :=
  decide (z.x1 ≤ position.1 ∧ position.1 ≤ z.x2 ∧
          z.y1 ≤ position.2 ∧ position.2 ≤ z.y2)

/-- `GameLogic` dataclass from `logic.py` (the engine state). -/
structure GameLogic where
  width : ℚ
  height : ℚ
  delete_zone : DeleteZone
  balls : List Ball := []
  inventory : Inventory := {}
  mouse_suck_radius : ℚ := 80
  default_spit_speed : ℚ := 300
  next_ball_id : Nat := 1
deriving DecidableEq

/-- `GameLogic._distance_sq`. -/
def distance_sq (a b : ℚ × ℚ) : ℚ :=
  (a.1 - b.1) * (a.1 - b.1) + (a.2 - b.2) * (a.2 - b.2)

/-- `GameLogic.create_ball`: allocate a fresh ball in the world. -/
def GameLogic.create_ball (g : GameLogic) (position velocity : ℚ × ℚ)
    (radius : ℚ) (color : Int × Int × Int) : GameLogic × Ball :=
  let ball : Ball :=
    { id := g.next_ball_id, position := position, velocity := velocity,
      radius := radius, color := color }
  ({ g with next_ball_id := g.next_ball_id + 1, balls := g.balls ++ [ball] },
   ball)

/-- `GameLogic._keep_ball_inside_bounds`: per-axis `if`/`elif` wall
reflection. -/
def GameLogic.keep_ball_inside_bounds (g : GameLogic) (ball : Ball) : Ball :=
  let x := ball.position.1
  let y := ball.position.2
  let vx := ball.velocity.1
  let vy := ball.velocity.2
  let px : ℚ × ℚ :=
    if x - ball.radius < 0 then (ball.radius, |vx|)
    else if x + ball.radius > g.width then (g.width - ball.radius, -|vx|)
    else (x, vx)
  let py : ℚ × ℚ :=
    if y - ball.radius < 0 then (ball.radius, |vy|)
    else if y + ball.radius > g.height then (g.height - ball.radius, -|vy|)
    else (y, vy)
  { ball with position := (px.1, py.1), velocity := (px.2, py.2) }

/-- One round of `_mix_colors_on_collisions`: process the pairs
`(b1, r)` for each `r` in the tail, in order, threading the colour
updates of both members of every touching pair (exactly the order
`itertools.combinations` visits pairs that share the first element). -/
def mixOne : Ball → List Ball → Ball × List Ball
  | b1, [] => (b1, [])
  | b1, b2 :: rest =>
    if b1.in_inventory || b2.in_inventory then
      let p := mixOne b1 rest
      (p.1, b2 :: p.2)
    else
      let min_dist := b1.radius + b2.radius
      if distance_sq b1.position b2.position ≤ min_dist * min_dist then
        let mixed := mix_colors_rgb b1.color b2.color
        let p := mixOne { b1 with color := mixed } rest
        (p.1, { b2 with color := mixed } :: p.2)
      else
        let p := mixOne b1 rest
        (p.1, b2 :: p.2)

theorem mixOne_snd_length (b : Ball) (l : List Ball) :
    (mixOne b l).2.length = l.length := by
  induction l generalizing b with
  | nil => rfl
  | cons b2 rest ih =>
    simp only [mixOne]
    split
    · simpa using ih b
    · split
      · simpa using ih _
      · simpa using ih b

/-- Fuelled driver for the collision pass; `mixOne` preserves the length
of its list argument, so fuel equal to the list length runs it to the end. -/
def mixPassAux : Nat → List Ball → List Ball
  | _, [] => []
  | 0, l => l
  | fuel + 1, b :: rest =>
    let p := mixOne b rest
    p.1 :: mixPassAux fuel p.2

/-- `_mix_colors_on_collisions` as a function on the ball list: for each
head ball, mix it against every later ball in order, then continue with
the (colour-updated) tail — the sequential pair order of
`itertools.combinations(self.balls, 2)`. -/
def mixPass (l : List Ball) : List Ball := mixPassAux l.length l

theorem mixPass_cons (b : Ball) (rest : List Ball) :
    mixPass (b :: rest) =
      (mixOne b rest).1 :: mixPass (mixOne b rest).2 := by
  simp [mixPass, List.length_cons, mixPassAux, mixOne_snd_length]

/-- `GameLogic._remove_balls_in_delete_zone`. -/
def GameLogic.remove_balls_in_delete_zone (g : GameLogic) : GameLogic :=
  { g with balls := g.balls.filter (fun b => !(g.delete_zone.contains b.position)) }

/-- `GameLogic.update`, exactly as the source orders it: one loop that
moves then clamps each ball, then the collision colour-mix, then
the delete-zone purge. -/
def GameLogic.update (g : GameLogic) (dt : ℚ) : GameLogic :=
  let g1 := { g with
    balls := g.balls.map (fun b => g.keep_ball_inside_bounds (Ball.move b dt)) }
  let g2 := { g1 with balls := mixPass g1.balls }
  g2.remove_balls_in_delete_zone

/-- Modelled from the spec: `update(dt)` as four fully-sequential passes —
(1) move every ball, (2) clamp every ball to the bounds, (3) pairwise
collision colour-mix, (4) delete-zone purge on the (clamped) positions. -/
def GameLogic.update_spec (g : GameLogic) (dt : ℚ) : GameLogic :=
  let moved := g.balls.map (fun b => b.move dt)
  let clamped := moved.map (fun b => g.keep_ball_inside_bounds b)
  let mixed := mixPass clamped
  let purged := mixed.filter (fun b => !(g.delete_zone.contains b.position))
  { g with balls := purged }

/-- The loop body of `suck_balls_with_mouse`: iterate over the snapshot,
break once `max_count` balls were moved, and for each ball within range
remove it from the world, add it (flagged) to the inventory and record it. -/
def suckLoop (mouse_pos : ℚ × ℚ) (radius_sq : ℚ) (max_count : Option Int) :
    List Ball → List Ball → Inventory → List Ball →
    List Ball × Inventory × List Ball
  | [], world, inv, moved => (world, inv, moved)
  | b :: rest, world, inv, moved =>
    if (match max_count with
        | some m => decide ((moved.length : Int) ≥ m)
        | none => false) then
      (world, inv, moved)
    else if distance_sq b.position mouse_pos ≤ radius_sq then
      suckLoop mouse_pos radius_sq max_count rest (world.erase b)
        (inv.add_ball b) (moved ++ [{ b with in_inventory := true }])
    else
      suckLoop mouse_pos radius_sq max_count rest world inv moved

/-- `GameLogic.suck_balls_with_mouse`: returns the new engine state and
the list of moved balls in encounter order. -/
def GameLogic.suck_balls_with_mouse (g : GameLogic) (mouse_pos : ℚ × ℚ)
    (radius : Option ℚ) (max_count : Option Int) : GameLogic × List Ball :=
  let r := radius.getD g.mouse_suck_radius
  let res := suckLoop mouse_pos (r * r) max_count g.balls g.balls g.inventory []
  ({ g with balls := res.1, inventory := res.2.1 }, res.2.2)

/-- The velocity direction computed by `spit_ball_from_inventory`:
`(0, -1)` when no direction is given or its length is zero, otherwise the
direction divided by its `hypot` length. -/
def spitDirection (direction : Option (ℚ × ℚ)) : ℚ × ℚ :=
  match direction with
  | none => (0, -1)
  | some d =>
    let length := hypotQ d.1 d.2
    if length = 0 then (0, -1) else (d.1 / length, d.2 / length)

/-- `GameLogic.spit_ball_from_inventory`: returns the new engine state and
the spat ball (`none` on empty inventory / absent specified ball). -/
def GameLogic.spit_ball_from_inventory (g : GameLogic) (mouse_pos : ℚ × ℚ)
    (direction : Option (ℚ × ℚ)) (speed : Option ℚ) (ball : Option Ball) :
    GameLogic × Option Ball :=
  let picked : Option (Ball × Inventory) :=
    match ball with
    | some b =>
      if b ∈ g.inventory.balls then some (b, ⟨g.inventory.balls.erase b⟩)
      else none
    | none => g.inventory.pop_last
  match picked with
  | none => (g, none)
  | some (b, inv) =>
    let sp := speed.getD g.default_spit_speed
    let u := spitDirection direction
    let b := { b with position := mouse_pos,
                      velocity := (u.1 * sp, u.2 * sp),
                      in_inventory := false }
    ({ g with inventory := inv, balls := g.balls ++ [b] }, some b)

/-- The non-colour fields of a ball (identity, kinematics, flag). -/
def Ball.skel (b : Ball) : Nat × (ℚ × ℚ) × (ℚ × ℚ) × ℚ × Bool :=
  (b.id, b.position, b.velocity, b.radius, b.in_inventory)

theorem mixOne_fst_skel (b : Ball) (l : List Ball) :
    (mixOne b l).1.skel = b.skel := by
  induction l generalizing b with
  | nil => rfl
  | cons b2 rest ih =>
    simp only [mixOne]
    split
    · simpa using ih b
    · split
      · simpa [Ball.skel] using ih _
      · simpa using ih b

theorem mixOne_snd_skel (b : Ball) (l : List Ball) :
    (mixOne b l).2.map Ball.skel = l.map Ball.skel := by
  induction l generalizing b with
  | nil => rfl
  | cons b2 rest ih =>
    simp only [mixOne]
    split
    · simpa using ih b
    · split
      · simpa [Ball.skel] using ih _
      · simpa using ih b

theorem mixPass_map_skel (l : List Ball) :
    (mixPass l).map Ball.skel = l.map Ball.skel := by
  suffices H : ∀ (n : Nat) (l : List Ball), l.length = n →
      (mixPass l).map Ball.skel = l.map Ball.skel from H l.length l rfl
  intro n
  induction n with
  | zero =>
    intro l h
    rw [List.length_eq_zero] at h
    subst h; rfl
  | succ n ih =>
    intro l h
    cases l with
    | nil => simp at h
    | cons b rest =>
      rw [mixPass_cons]
      simp only [List.map_cons, mixOne_fst_skel]
      rw [ih (mixOne b rest).2 (by rw [mixOne_snd_length]; simpa using h),
          mixOne_snd_skel]

theorem cons_sublist_erase {α : Type} [DecidableEq α] {a : α} {l1 l2 : List α}
    (h : List.Sublist (a :: l1) l2) : List.Sublist l1 (l2.erase a) := by
  rcases List.cons_sublist_iff.mp h with ⟨r1, r2, rfl, ha, hsub⟩
  rw [List.erase_append_left _ ha]
  exact hsub.trans (List.sublist_append_right _ _)

theorem forall_mem_of_map_eq {α β : Type} {f : α → β} {l1 l2 : List α}
    (h : l1.map f = l2.map f) {p : β → Prop} (hp : ∀ b ∈ l2, p (f b)) :
    ∀ b ∈ l1, p (f b) := by
  intro b hb
  have hmem : f b ∈ l1.map f := List.mem_map_of_mem f hb
  rw [h] at hmem
  rcases List.mem_map.mp hmem with ⟨a, ha, hfa⟩
  rw [← hfa]
  exact hp a ha

theorem mixPass_map_id (l : List Ball) :
    (mixPass l).map Ball.id = l.map Ball.id := by
  have h := congrArg
    (List.map (fun s : Nat × (ℚ × ℚ) × (ℚ × ℚ) × ℚ × Bool => s.1))
    (mixPass_map_skel l)
  simpa [List.map_map, Function.comp, Ball.skel] using h

theorem mixPass_map_flag (l : List Ball) :
    (mixPass l).map Ball.in_inventory = l.map Ball.in_inventory := by
  have h := congrArg
    (List.map (fun s : Nat × (ℚ × ℚ) × (ℚ × ℚ) × ℚ × Bool => s.2.2.2.2))
    (mixPass_map_skel l)
  simpa [List.map_map, Function.comp, Ball.skel] using h

theorem keep_ball_inside_bounds_id (g : GameLogic) (b : Ball) :
    (g.keep_ball_inside_bounds b).id = b.id := rfl

theorem keep_ball_inside_bounds_flag (g : GameLogic) (b : Ball) :
    (g.keep_ball_inside_bounds b).in_inventory = b.in_inventory := rfl

theorem move_id (b : Ball) (dt : ℚ) : (b.move dt).id = b.id := by
  unfold Ball.move; split <;> rfl

theorem move_flag (b : Ball) (dt : ℚ) :
    (b.move dt).in_inventory = b.in_inventory := by
  unfold Ball.move; split <;> rfl

theorem update_inventory (g : GameLogic) (dt : ℚ) :
    (g.update dt).inventory = g.inventory := rfl

theorem update_next_id (g : GameLogic) (dt : ℚ) :
    (g.update dt).next_ball_id = g.next_ball_id := rfl

theorem update_balls_def (g : GameLogic) (dt : ℚ) :
    (g.update dt).balls =
      (mixPass (g.balls.map
          (fun b => g.keep_ball_inside_bounds (Ball.move b dt)))).filter
        (fun b => !(g.delete_zone.contains b.position)) := rfl

/-- The container invariant of the engine (spec section 3): world balls are
unflagged, inventory balls are flagged, no id occurs twice across the two
containers, and every live id is below the id counter. -/
def WellFormed (g : GameLogic) : Prop :=
  (∀ b ∈ g.balls, b.in_inventory = false) ∧
  (∀ b ∈ g.inventory.balls, b.in_inventory = true) ∧
  ((g.balls ++ g.inventory.balls).map Ball.id).Nodup ∧
  (∀ i ∈ (g.balls ++ g.inventory.balls).map Ball.id, i < g.next_ball_id)

theorem wf_create (g : GameLogic) (p v : ℚ × ℚ) (r : ℚ) (c : Int × Int × Int)
    (h : WellFormed g) : WellFormed (g.create_ball p v r c).1 := by
  obtain ⟨h1, h2, h3, h4⟩ := h
  have h3x : (g.balls.map Ball.id ++ g.inventory.balls.map Ball.id).Nodup := by
    simpa [List.map_append] using h3
  have h4x : ∀ i ∈ g.balls.map Ball.id ++ g.inventory.balls.map Ball.id,
      i < g.next_ball_id := by
    intro i hi
    exact h4 i (by simpa [List.map_append] using hi)
  have hnot : g.next_ball_id ∉
      g.balls.map Ball.id ++ g.inventory.balls.map Ball.id :=
    fun hmem => absurd (h4x _ hmem) (lt_irrefl _)
  refine ⟨?_, h2, ?_, ?_⟩
  · intro b hb
    simp only [GameLogic.create_ball, List.mem_append, List.mem_singleton] at hb
    rcases hb with hb | rfl
    · exact h1 b hb
    · rfl
  · have hids : (((g.create_ball p v r c).1.balls ++
        (g.create_ball p v r c).1.inventory.balls).map Ball.id) =
        (g.balls.map Ball.id ++ [g.next_ball_id]) ++
          g.inventory.balls.map Ball.id := by
      simp [GameLogic.create_ball, List.map_append]
    rw [hids]
    have hperm :
        List.Perm
          ((g.balls.map Ball.id ++ [g.next_ball_id]) ++
            g.inventory.balls.map Ball.id)
          (([g.next_ball_id] ++ g.balls.map Ball.id) ++
            g.inventory.balls.map Ball.id) :=
      List.Perm.append_right _
        (@List.perm_append_comm _ (g.balls.map Ball.id) [g.next_ball_id])
    exact hperm.nodup_iff.mpr (List.Nodup.cons hnot h3x)
  · intro i hi
    have hids : (((g.create_ball p v r c).1.balls ++
        (g.create_ball p v r c).1.inventory.balls).map Ball.id) =
        (g.balls.map Ball.id ++ [g.next_ball_id]) ++
          g.inventory.balls.map Ball.id := by
      simp [GameLogic.create_ball, List.map_append]
    rw [hids] at hi
    have hnext : (g.create_ball p v r c).1.next_ball_id = g.next_ball_id + 1 :=
      rfl
    rw [hnext]
    simp only [List.mem_append, List.mem_singleton] at hi
    rcases hi with (hi | rfl) | hi
    · exact Nat.lt_succ_of_lt (h4x i (List.mem_append.mpr (Or.inl hi)))
    · exact Nat.lt_succ_self _
    · exact Nat.lt_succ_of_lt (h4x i (List.mem_append.mpr (Or.inr hi)))

theorem map_id_of_pointwise {f : Ball → Ball}
    (hf : ∀ b, (f b).id = b.id) (l : List Ball) :
    (l.map f).map Ball.id = l.map Ball.id := by
  induction l with
  | nil => rfl
  | cons b rest ih => simp [hf, ih]

theorem map_flag_of_pointwise {f : Ball → Ball}
    (hf : ∀ b, (f b).in_inventory = b.in_inventory) (l : List Ball) :
    (l.map f).map Ball.in_inventory = l.map Ball.in_inventory := by
  induction l with
  | nil => rfl
  | cons b rest ih => simp [hf, ih]

theorem wf_update (g : GameLogic) (dt : ℚ) (h : WellFormed g) :
    WellFormed (g.update dt) := by
  obtain ⟨h1, h2, h3, h4⟩ := h
  have h3x : (g.balls.map Ball.id ++ g.inventory.balls.map Ball.id).Nodup := by
    simpa [List.map_append] using h3
  have hMid : ((g.balls.map
      (fun b => g.keep_ball_inside_bounds (Ball.move b dt))).map Ball.id) =
      g.balls.map Ball.id :=
    map_id_of_pointwise (fun b => by rw [keep_ball_inside_bounds_id, move_id]) _
  have hMflag : ((g.balls.map
      (fun b => g.keep_ball_inside_bounds (Ball.move b dt))).map
        Ball.in_inventory) = g.balls.map Ball.in_inventory :=
    map_flag_of_pointwise
      (fun b => by rw [keep_ball_inside_bounds_flag, move_flag]) _
  have hmix_id : ((mixPass (g.balls.map
      (fun b => g.keep_ball_inside_bounds (Ball.move b dt)))).map Ball.id) =
      g.balls.map Ball.id := by
    rw [mixPass_map_id, hMid]
  have hmix_flag : ((mixPass (g.balls.map
      (fun b => g.keep_ball_inside_bounds (Ball.move b dt)))).map
        Ball.in_inventory) = g.balls.map Ball.in_inventory := by
    rw [mixPass_map_flag, hMflag]
  have hsub : List.Sublist ((g.update dt).balls.map Ball.id)
      (g.balls.map Ball.id) := by
    rw [update_balls_def, ← hmix_id]
    exact (List.filter_sublist _).map Ball.id
  refine ⟨?_, ?_, ?_, ?_⟩
  · intro b hb
    rw [update_balls_def] at hb
    have hb2 := List.mem_of_mem_filter hb
    exact forall_mem_of_map_eq (p := fun x => x = false) hmix_flag h1 b hb2
  · rw [update_inventory]; exact h2
  · have : List.Sublist
        ((g.update dt).balls.map Ball.id ++ g.inventory.balls.map Ball.id)
        (g.balls.map Ball.id ++ g.inventory.balls.map Ball.id) :=
      hsub.append_right _
    have hres := h3x.sublist this
    simpa [List.map_append, update_inventory] using hres
  · intro i hi
    simp only [List.map_append, List.mem_append, update_inventory,
      update_next_id] at hi ⊢
    rcases hi with hi | hi
    · exact h4 i (by
        simp only [List.map_append, List.mem_append]
        exact Or.inl (hsub.subset hi))
    · exact h4 i (by simp only [List.map_append, List.mem_append]; exact Or.inr hi)

theorem suckLoop_wf (mp : ℚ × ℚ) (rsq : ℚ) (mc : Option Int) (N : Nat) :
    ∀ (snapshot world : List Ball) (inv : Inventory) (moved : List Ball),
    List.Sublist snapshot world →
    (∀ b ∈ world, b.in_inventory = false) →
    (∀ b ∈ inv.balls, b.in_inventory = true) →
    (world.map Ball.id ++ inv.balls.map Ball.id).Nodup →
    (∀ i ∈ world.map Ball.id ++ inv.balls.map Ball.id, i < N) →
    (∀ b ∈ (suckLoop mp rsq mc snapshot world inv moved).1,
        b.in_inventory = false) ∧
    (∀ b ∈ (suckLoop mp rsq mc snapshot world inv moved).2.1.balls,
        b.in_inventory = true) ∧
    ((suckLoop mp rsq mc snapshot world inv moved).1.map Ball.id ++
      (suckLoop mp rsq mc snapshot world inv moved).2.1.balls.map
        Ball.id).Nodup ∧
    (∀ i ∈ (suckLoop mp rsq mc snapshot world inv moved).1.map Ball.id ++
      (suckLoop mp rsq mc snapshot world inv moved).2.1.balls.map Ball.id,
        i < N) := by
  intro snapshot
  induction snapshot with
  | nil =>
    intro world inv moved _ hw hi hn hb
    exact ⟨hw, hi, hn, hb⟩
  | cons b rest ih =>
    intro world inv moved hs hw hi hn hb
    have hbw : b ∈ world := hs.subset (List.mem_cons_self b rest)
    simp only [suckLoop]
    split
    · exact ⟨hw, hi, hn, hb⟩
    · split
      · -- ball b is sucked: world loses b, inventory gains it flagged
        have hs' : List.Sublist rest (world.erase b) := cons_sublist_erase hs
        have hw' : ∀ x ∈ world.erase b, x.in_inventory = false :=
          fun x hx => hw x ((List.erase_sublist b world).subset hx)
        have hi' : ∀ x ∈ (inv.add_ball b).balls, x.in_inventory = true := by
          intro x hx
          simp only [Inventory.add_ball, List.mem_append,
            List.mem_singleton] at hx
          rcases hx with hx | rfl
          · exact hi x hx
          · rfl
        have pw : List.Perm (world.map Ball.id)
            (b.id :: (world.erase b).map Ball.id) :=
          (List.perm_cons_erase hbw).map Ball.id
        have pall : List.Perm
            (world.map Ball.id ++ inv.balls.map Ball.id)
            (b.id :: ((world.erase b).map Ball.id ++
              inv.balls.map Ball.id)) :=
          pw.append_right _
        have hmapinv : (inv.add_ball b).balls.map Ball.id =
            inv.balls.map Ball.id ++ [b.id] := by
          simp [Inventory.add_ball]
        have p1 : List.Perm
            ((world.erase b).map Ball.id ++
              (inv.balls.map Ball.id ++ [b.id]))
            (b.id :: ((world.erase b).map Ball.id ++
              inv.balls.map Ball.id)) := by
          rw [← List.append_assoc]
          exact List.perm_append_comm
        have hn' : ((world.erase b).map Ball.id ++
            (inv.add_ball b).balls.map Ball.id).Nodup := by
          rw [hmapinv]
          exact p1.nodup_iff.mpr (pall.nodup_iff.mp hn)
        have hb' : ∀ i ∈ (world.erase b).map Ball.id ++
            (inv.add_ball b).balls.map Ball.id, i < N := by
          intro i hi2
          rw [hmapinv] at hi2
          exact hb i ((p1.trans pall.symm).subset hi2)
        exact ih (world.erase b) (inv.add_ball b)
          (moved ++ [{ b with in_inventory := true }]) hs' hw' hi' hn' hb'
      · -- ball b is out of range: state unchanged
        have hs' : List.Sublist rest world :=
          (List.sublist_cons_self b rest).trans hs
        exact ih world inv moved hs' hw hi hn hb

theorem wf_suck (g : GameLogic) (mp : ℚ × ℚ) (rad : Option ℚ)
    (mc : Option Int) (h : WellFormed g) :
    WellFormed (g.suck_balls_with_mouse mp rad mc).1 := by
  obtain ⟨h1, h2, h3, h4⟩ := h
  have h3x : (g.balls.map Ball.id ++ g.inventory.balls.map Ball.id).Nodup := by
    simpa [List.map_append] using h3
  have h4x : ∀ i ∈ g.balls.map Ball.id ++ g.inventory.balls.map Ball.id,
      i < g.next_ball_id :=
    fun i hi => h4 i (by simpa [List.map_append] using hi)
  have key := suckLoop_wf mp
    ((rad.getD g.mouse_suck_radius) * (rad.getD g.mouse_suck_radius)) mc
    g.next_ball_id g.balls g.balls g.inventory [] (List.Sublist.refl _)
    h1 h2 h3x h4x
  obtain ⟨k1, k2, k3, k4⟩ := key
  refine ⟨k1, k2, ?_, ?_⟩
  · simpa [GameLogic.suck_balls_with_mouse, List.map_append] using k3
  · intro i hi
    exact k4 i (by
      simpa [GameLogic.suck_balls_with_mouse, List.map_append] using hi)

theorem wf_transfer (g : GameLogic) (b nb : Ball) (inv2 : List Ball)
    (hid : nb.id = b.id) (hflag : nb.in_inventory = false)
    (hperm : List.Perm g.inventory.balls (b :: inv2))
    (hsub : List.Sublist inv2 g.inventory.balls)
    (h : WellFormed g) :
    WellFormed { g with inventory := ⟨inv2⟩, balls := g.balls ++ [nb] } := by
  obtain ⟨h1, h2, h3, h4⟩ := h
  have h3x : (g.balls.map Ball.id ++ g.inventory.balls.map Ball.id).Nodup := by
    simpa [List.map_append] using h3
  have h4x : ∀ i ∈ g.balls.map Ball.id ++ g.inventory.balls.map Ball.id,
      i < g.next_ball_id :=
    fun i hi => h4 i (by simpa [List.map_append] using hi)
  have pI : List.Perm (g.inventory.balls.map Ball.id)
      (b.id :: inv2.map Ball.id) := hperm.map Ball.id
  have pold : List.Perm
      (g.balls.map Ball.id ++ g.inventory.balls.map Ball.id)
      (b.id :: (g.balls.map Ball.id ++ inv2.map Ball.id)) :=
    (pI.append_left _).trans List.perm_middle
  have hc : (b.id :: (g.balls.map Ball.id ++ inv2.map Ball.id)).Nodup :=
    pold.nodup_iff.mp h3x
  have t : ((g.balls.map Ball.id ++ [b.id]) ++ inv2.map Ball.id).Nodup := by
    rw [List.append_assoc]
    exact List.perm_middle.nodup_iff.mpr hc
  refine ⟨?_, ?_, ?_, ?_⟩
  · intro x hx
    rcases List.mem_append.mp hx with hx | hx
    · exact h1 x hx
    · simp only [List.mem_singleton] at hx
      subst hx; exact hflag
  · intro x hx
    exact h2 x (hsub.subset hx)
  · simpa [List.map_append, hid] using t
  · intro i hi
    simp only [List.map_append, List.map_cons, List.map_nil, hid,
      List.mem_append, List.mem_singleton] at hi
    refine h4x i ?_
    rcases hi with (hi | rfl) | hi
    · exact List.mem_append.mpr (Or.inl hi)
    · exact List.mem_append.mpr
        (Or.inr (pI.symm.subset (List.mem_cons_self _ _)))
    · exact List.mem_append.mpr
        (Or.inr (pI.symm.subset (List.mem_cons_of_mem _ hi)))

theorem wf_spit (g : GameLogic) (mp : ℚ × ℚ) (dir : Option (ℚ × ℚ))
    (sp : Option ℚ) (ob : Option Ball) (h : WellFormed g) :
    WellFormed (g.spit_ball_from_inventory mp dir sp ob).1 := by
  cases ob with
  | some b =>
    by_cases hmem : b ∈ g.inventory.balls
    · simp only [GameLogic.spit_ball_from_inventory, hmem, if_pos]
      exact wf_transfer g b _ _ rfl rfl (List.perm_cons_erase hmem)
        (List.erase_sublist b g.inventory.balls) h
    · simp only [GameLogic.spit_ball_from_inventory, hmem, if_neg,
        not_false_iff]
      exact h
  | none =>
    cases heq : g.inventory.balls.getLast? with
    | none =>
      simp only [GameLogic.spit_ball_from_inventory, Inventory.pop_last, heq]
      exact h
    | some lb =>
      have hsplit : g.inventory.balls.dropLast ++ [lb] = g.inventory.balls :=
        List.dropLast_append_getLast? lb (by rw [heq]; exact rfl)
      have hperm : List.Perm g.inventory.balls
          (lb :: g.inventory.balls.dropLast) := by
        have p0 : List.Perm (g.inventory.balls.dropLast ++ [lb])
            (lb :: g.inventory.balls.dropLast) := List.perm_append_comm
        rw [hsplit] at p0
        exact p0
      simp only [GameLogic.spit_ball_from_inventory, Inventory.pop_last, heq]
      exact wf_transfer g lb _ _ rfl rfl hperm
        (List.dropLast_sublist g.inventory.balls) h

/-- States reachable from a fresh engine (`GameLogic(width, height,
delete_zone)` with all containers empty and the id counter at 1) by any
sequence of the four public operations. -/
inductive Reachable : GameLogic → Prop
  | init (width height : ℚ) (dz : DeleteZone) :
      Reachable { width := width, height := height, delete_zone := dz }
  | create (g : GameLogic) (p v : ℚ × ℚ) (r : ℚ) (c : Int × Int × Int) :
      Reachable g → Reachable (g.create_ball p v r c).1
  | step (g : GameLogic) (dt : ℚ) :
      Reachable g → Reachable (g.update dt)
  | suck (g : GameLogic) (mp : ℚ × ℚ) (rad : Option ℚ) (mc : Option Int) :
      Reachable g → Reachable (g.suck_balls_with_mouse mp rad mc).1
  | spit (g : GameLogic) (mp : ℚ × ℚ) (dir : Option (ℚ × ℚ))
      (sp : Option ℚ) (ob : Option Ball) :
      Reachable g → Reachable (g.spit_ball_from_inventory mp dir sp ob).1

theorem reachable_wellFormed {g : GameLogic} (h : Reachable g) :
    WellFormed g := by
  induction h with
  | init width height dz =>
    exact ⟨fun b hb => absurd hb (List.not_mem_nil b),
      fun b hb => absurd hb (List.not_mem_nil b),
      List.nodup_nil, fun i hi => absurd hi (List.not_mem_nil i)⟩
  | create g p v r c _ ih => exact wf_create g p v r c ih
  | step g dt _ ih => exact wf_update g dt ih
  | suck g mp rad mc _ ih => exact wf_suck g mp rad mc ih
  | spit g mp dir sp ob _ ih => exact wf_spit g mp dir sp ob ih

theorem roundHalfEven_intCast (k : Int) : roundHalfEven (k : ℚ) = k := by
  unfold roundHalfEven
  rw [Int.floor_intCast]
  norm_num

theorem roundHalfEven_half (k : Int) :
    roundHalfEven ((k : ℚ) + 1/2) = if k % 2 = 0 then k else k + 1 := by
  unfold roundHalfEven
  have hhalf : ⌊(1/2 : ℚ)⌋ = 0 := by
    rw [Int.floor_eq_zero_iff]
    constructor <;> norm_num
  have hf : ⌊(k : ℚ) + 1/2⌋ = k := by
    rw [Int.floor_int_add, hhalf, add_zero]
  have hr : ((k : ℚ) + 1/2) - (k : ℚ) = 1/2 := by ring
  simp only [hf, hr]
  norm_num

theorem avg_eq_roundHalfEven (a b : Int) :
    avg a b = roundHalfEven (((a : ℚ) + (b : ℚ)) / 2) := by
  have hcast : ((a : ℚ) + (b : ℚ)) / 2 = ((a + b : Int) : ℚ) / 2 := by
    push_cast; ring
  rw [hcast]
  rcases Int.emod_two_eq_zero_or_one (a + b) with h2 | h2
  · obtain ⟨k, hk⟩ : ∃ k, a + b = 2 * k := ⟨(a + b) / 2, by omega⟩
    have hq : ((a + b : Int) : ℚ) / 2 = (k : ℚ) := by
      rw [hk]; push_cast; ring
    rw [hq, roundHalfEven_intCast]
    simp only [avg, h2, if_pos]
    rw [hk, Int.mul_fdiv_cancel_left k (by norm_num)]
  · obtain ⟨k, hk⟩ : ∃ k, a + b = 2 * k + 1 := ⟨(a + b) / 2, by omega⟩
    have hq : ((a + b : Int) : ℚ) / 2 = (k : ℚ) + 1/2 := by
      rw [hk]; push_cast; ring
    have hfd : Int.fdiv (a + b) 2 = k := by
      rw [Int.fdiv_eq_ediv _ (by norm_num)]
      omega
    rw [hq, roundHalfEven_half]
    simp only [avg, h2, hfd]
    norm_num

/-- C1: the claim asserts round-half-away-from-zero, with
`mixColors((201,0,0),(0,0,0))` giving red channel 101.  The code uses
Python 3 `round`, which is round-half-to-even: the red channel is 100,
not 101 (while the claimed 200-case value 100 does hold). -/
theorem claim_C1_counterexample :
    (mix_colors_rgb (201, 0, 0) (0, 0, 0)).1 = 100 ∧
    (mix_colors_rgb (201, 0, 0) (0, 0, 0)).1 ≠ 101 ∧
    roundHalfAway ((201 + 0 : ℚ) / 2) = 101 := by
  refine ⟨by decide, by decide, ?_⟩
  unfold roundHalfAway
  rw [if_pos (by norm_num : (0 : ℚ) ≤ (201 + 0) / 2)]
  rw [show ((201 + 0 : ℚ)) / 2 + 1 / 2 = ((101 : Int) : ℚ) by norm_num]
  exact Int.floor_intCast 101

/-- C1 (amended): `mix_colors_rgb` computes each output channel as the
round-half-to-even (banker's rounding, Python 3 `round`) of the arithmetic
mean of the two input channels, independently clamped to `[0, 255]` after
rounding; in particular the red channel of both
`mixColors((201,0,0),(0,0,0))` and `mixColors((200,0,0),(0,0,0))` is 100. -/
theorem claim_C1_mix_colors_half_even :
    (∀ c1 c2 : Int × Int × Int,
      mix_colors_rgb c1 c2 =
        (clamp (roundHalfEven (((c1.1 : ℚ) + (c2.1 : ℚ)) / 2)) 0 255,
         clamp (roundHalfEven (((c1.2.1 : ℚ) + (c2.2.1 : ℚ)) / 2)) 0 255,
         clamp (roundHalfEven (((c1.2.2 : ℚ) + (c2.2.2 : ℚ)) / 2)) 0 255)) ∧
    (mix_colors_rgb (201, 0, 0) (0, 0, 0)).1 = 100 ∧
    (mix_colors_rgb (200, 0, 0) (0, 0, 0)).1 = 100 := by
  refine ⟨?_, by decide, by decide⟩
  intro c1 c2
  unfold mix_colors_rgb
  rw [avg_eq_roundHalfEven, avg_eq_roundHalfEven, avg_eq_roundHalfEven]

/-- A state whose single ball's raw moved position lies inside the delete
zone while its clamped position does not: it survives `update`, showing
the purge tests the post-clamp position. -/
def postClampDemo : GameLogic :=
  { width := 800, height := 600, delete_zone := ⟨-100, -100, -1, 1000⟩,
    balls := [{ id := 1, position := (5, 50), velocity := (-100, 0),
                radius := 10, color := (10, 20, 30) }] }

/-- C2: `update(dt)` — one interleaved move-and-clamp loop, then the
collision colour-mix, then the delete-zone purge — is observably equal to
the spec's four fully-sequential passes; and (demo) a ball whose raw moved
position is inside the delete zone but whose clamped position is not
survives the update, so the purge tests the post-clamp position. -/
theorem claim_C2_update_pass_order :
    (∀ (g : GameLogic) (dt : ℚ), g.update dt = g.update_spec dt) ∧
    ((postClampDemo.update 1).balls =
      [{ id := 1, position := (10, 50), velocity := (100, 0), radius := 10,
         color := (10, 20, 30) }] ∧
      postClampDemo.delete_zone.contains
        (Ball.move { id := 1, position := (5, 50), velocity := (-100, 0),
                     radius := 10, color := (10, 20, 30) } 1).position =
          true) := by
  refine ⟨?_, ?_, ?_⟩
  · intro g dt
    simp only [GameLogic.update, GameLogic.update_spec,
      GameLogic.remove_balls_in_delete_zone, List.map_map]
    rfl
  · norm_num [postClampDemo, GameLogic.update, GameLogic.update_spec,
      GameLogic.remove_balls_in_delete_zone, GameLogic.keep_ball_inside_bounds,
      Ball.move, mixPass, mixPassAux, mixOne, DeleteZone.contains, List.filter]
  · norm_num [postClampDemo, Ball.move, DeleteZone.contains]

/-- C3: in every state reachable from a fresh engine by any sequence of
the four public operations, world balls are unflagged, inventory balls
are flagged, and no ball id occurs twice within or across the two
containers — each live ball is held by exactly one container. -/
theorem claim_C3_container_invariant (g : GameLogic) (h : Reachable g) :
    (∀ b ∈ g.balls, b.in_inventory = false) ∧
    (∀ b ∈ g.inventory.balls, b.in_inventory = true) ∧
    ((g.balls ++ g.inventory.balls).map Ball.id).Nodup := by
  obtain ⟨h1, h2, h3, _⟩ := reachable_wellFormed h
  exact ⟨h1, h2, h3⟩

theorem claim_C3_container_invariant_witness :
    (∀ b ∈ ((({ width := 800, height := 600,
                delete_zone := ⟨0, 560, 200, 600⟩ } : GameLogic).create_ball
          (100, 100) (50, 0) 20 (255, 0, 0)).1.suck_balls_with_mouse
          (100, 100) none none).1.balls, b.in_inventory = false) ∧
    (∀ b ∈ ((({ width := 800, height := 600,
                delete_zone := ⟨0, 560, 200, 600⟩ } : GameLogic).create_ball
          (100, 100) (50, 0) 20 (255, 0, 0)).1.suck_balls_with_mouse
          (100, 100) none none).1.inventory.balls, b.in_inventory = true) ∧
    (((((({ width := 800, height := 600,
                delete_zone := ⟨0, 560, 200, 600⟩ } : GameLogic).create_ball
          (100, 100) (50, 0) 20 (255, 0, 0)).1.suck_balls_with_mouse
          (100, 100) none none).1.balls ++
        ((({ width := 800, height := 600,
                delete_zone := ⟨0, 560, 200, 600⟩ } : GameLogic).create_ball
          (100, 100) (50, 0) 20 (255, 0, 0)).1.suck_balls_with_mouse
          (100, 100) none none).1.inventory.balls)).map Ball.id).Nodup :=
  claim_C3_container_invariant _
    (Reachable.suck _ (100, 100) none none
      (Reachable.create _ (100, 100) (50, 0) 20 (255, 0, 0)
        (Reachable.init 800 600 ⟨0, 560, 200, 600⟩)))

/-- C5: `contains` is the inclusive rectangle test; after `update` no
surviving world ball's (post-clamp) position is inside the delete zone —
any ball value whose position the zone contains is absent from the world
collection — and `update` never touches the inventory, so purged balls do
not reappear there and inventory balls are never purged. -/
theorem claim_C5_delete_zone_purge :
    (∀ (z : DeleteZone) (p : ℚ × ℚ),
      z.contains p = true ↔
        (z.x1 ≤ p.1 ∧ p.1 ≤ z.x2 ∧ z.y1 ≤ p.2 ∧ p.2 ≤ z.y2)) ∧
    (∀ (g : GameLogic) (dt : ℚ) (b : Ball),
      g.delete_zone.contains b.position = true → b ∉ (g.update dt).balls) ∧
    (∀ (g : GameLogic) (dt : ℚ), (g.update dt).inventory = g.inventory) := by
  refine ⟨?_, ?_, fun g dt => rfl⟩
  · intro z p
    simp [DeleteZone.contains]
  · intro g dt b hc hmem
    rw [update_balls_def] at hmem
    have hp := List.of_mem_filter hmem
    simp only [hc, Bool.not_true] at hp
    exact absurd hp (by simp)

theorem claim_C5_delete_zone_purge_witness :
    ({ id := 1, position := (50, 50), velocity := (0, 0), radius := 5,
       color := (1, 2, 3) } : Ball) ∉
      (({ width := 800, height := 600, delete_zone := ⟨0, 0, 100, 100⟩,
          balls := [{ id := 1, position := (50, 50), velocity := (0, 0),
                      radius := 5, color := (1, 2, 3) }] } : GameLogic).update
        0).balls :=
  claim_C5_delete_zone_purge.2.1 _ 0 _ (by decide)

/-- C6: per-axis boundary clamping — near edge below 0 sets the position
component to the radius and the velocity component to its absolute value
(non-negative); otherwise a far edge beyond the dimension sets the
position component to dimension − radius and the velocity component to
minus its absolute value (non-positive); otherwise the axis is untouched
(so the two corrections are mutually exclusive per axis); and the claimed
left-wall instance for a ball starting at `(0, y)` with velocity
`(−v, 0)`, `v > 0`. -/
theorem claim_C6_boundary_clamp :
    (∀ (g : GameLogic) (b : Ball),
      ((b.position.1 - b.radius < 0 →
         (g.keep_ball_inside_bounds b).position.1 = b.radius ∧
         (g.keep_ball_inside_bounds b).velocity.1 = |b.velocity.1|) ∧
       (¬ b.position.1 - b.radius < 0 → b.position.1 + b.radius > g.width →
         (g.keep_ball_inside_bounds b).position.1 = g.width - b.radius ∧
         (g.keep_ball_inside_bounds b).velocity.1 = -|b.velocity.1|) ∧
       (¬ b.position.1 - b.radius < 0 → ¬ b.position.1 + b.radius > g.width →
         (g.keep_ball_inside_bounds b).position.1 = b.position.1 ∧
         (g.keep_ball_inside_bounds b).velocity.1 = b.velocity.1)) ∧
      ((b.position.2 - b.radius < 0 →
         (g.keep_ball_inside_bounds b).position.2 = b.radius ∧
         (g.keep_ball_inside_bounds b).velocity.2 = |b.velocity.2|) ∧
       (¬ b.position.2 - b.radius < 0 → b.position.2 + b.radius > g.height →
         (g.keep_ball_inside_bounds b).position.2 = g.height - b.radius ∧
         (g.keep_ball_inside_bounds b).velocity.2 = -|b.velocity.2|) ∧
       (¬ b.position.2 - b.radius < 0 → ¬ b.position.2 + b.radius > g.height →
         (g.keep_ball_inside_bounds b).position.2 = b.position.2 ∧
         (g.keep_ball_inside_bounds b).velocity.2 = b.velocity.2))) ∧
    (∀ (g : GameLogic) (y v r dt : ℚ) (i : Nat) (c : Int × Int × Int),
      0 < v → 0 < dt → 0 ≤ r →
      (g.keep_ball_inside_bounds (Ball.move
        { id := i, position := (0, y), velocity := (-v, 0), radius := r,
          color := c } dt)).position.1 = r ∧
      0 ≤ (g.keep_ball_inside_bounds (Ball.move
        { id := i, position := (0, y), velocity := (-v, 0), radius := r,
          color := c } dt)).velocity.1) := by
  constructor
  · intro g b
    refine ⟨⟨?_, ?_, ?_⟩, ⟨?_, ?_, ?_⟩⟩
    · intro h1
      constructor <;> simp [GameLogic.keep_ball_inside_bounds, h1]
    · intro h1 h2
      constructor <;> simp [GameLogic.keep_ball_inside_bounds, h1, h2]
    · intro h1 h2
      constructor <;> simp [GameLogic.keep_ball_inside_bounds, h1, h2]
    · intro h1
      constructor <;> simp [GameLogic.keep_ball_inside_bounds, h1]
    · intro h1 h2
      constructor <;> simp [GameLogic.keep_ball_inside_bounds, h1, h2]
    · intro h1 h2
      constructor <;> simp [GameLogic.keep_ball_inside_bounds, h1, h2]
  · intro g y v r dt i c hv hdt hr
    have hmv : Ball.move
        { id := i, position := (0, y), velocity := (-v, 0), radius := r,
          color := c } dt =
        { id := i, position := (0 + -v * dt, y + 0 * dt),
          velocity := (-v, 0), radius := r, color := c } := rfl
    have hcond : -(v * dt) < r := by nlinarith
    rw [hmv]
    constructor
    · simp [GameLogic.keep_ball_inside_bounds, hcond]
    · simp [GameLogic.keep_ball_inside_bounds, hcond, abs_nonneg]

theorem claim_C6_boundary_clamp_witness :
    (({ width := 800, height := 600, delete_zone := ⟨500, 500, 600, 600⟩ } :
        GameLogic).keep_ball_inside_bounds (Ball.move
        { id := 1, position := (0, 300), velocity := (-50, 0), radius := 10,
          color := (1, 2, 3) } 1)).position.1 = 10 ∧
    0 ≤ (({ width := 800, height := 600,
            delete_zone := ⟨500, 500, 600, 600⟩ } :
        GameLogic).keep_ball_inside_bounds (Ball.move
        { id := 1, position := (0, 300), velocity := (-50, 0), radius := 10,
          color := (1, 2, 3) } 1)).velocity.1 :=
  claim_C6_boundary_clamp.2 _ 300 50 10 1 1 (1, 2, 3) (by norm_num)
    (by norm_num) (by norm_num)

/-- A state with two overlapping, resting balls coloured (255,0,0) and
(0,0,255), away from the walls and the delete zone. -/
def mixDemo : GameLogic :=
  { width := 800, height := 600, delete_zone := ⟨500, 500, 600, 600⟩,
    balls := [{ id := 1, position := (100, 100), velocity := (0, 0),
                radius := 20, color := (255, 0, 0) },
              { id := 2, position := (110, 100), velocity := (0, 0),
                radius := 20, color := (0, 0, 255) }] }

/-- C4: the collision pass preserves every ball's id, position, velocity,
radius and inventory flag (so collisions change colours only); a touching
world pair (squared distance ≤ (r1+r2)²) gets the identical colour
`mixColors(old_c1, old_c2)` on both members; a pair with an inventory
member is left untouched; and the claimed instance: two overlapping balls
coloured (255,0,0) and (0,0,255) both end `update` with (128,0,128) and
unchanged positions and velocities.  A ball overlapping several others has
its colour overwritten by each pairing in turn (sequential pair order):
three mutually-overlapping balls compound left to right. -/
theorem claim_C4_collision_mix :
    (∀ l : List Ball, (mixPass l).map Ball.skel = l.map Ball.skel) ∧
    (∀ b1 b2 : Ball, b1.in_inventory = false → b2.in_inventory = false →
      distance_sq b1.position b2.position ≤
        (b1.radius + b2.radius) * (b1.radius + b2.radius) →
      mixPass [b1, b2] =
        [{ b1 with color := mix_colors_rgb b1.color b2.color },
         { b2 with color := mix_colors_rgb b1.color b2.color }]) ∧
    (∀ b1 b2 : Ball, b1.in_inventory = true ∨ b2.in_inventory = true →
      mixPass [b1, b2] = [b1, b2]) ∧
    ((mixDemo.update 1).balls =
      [{ id := 1, position := (100, 100), velocity := (0, 0), radius := 20,
         color := (128, 0, 128) },
       { id := 2, position := (110, 100), velocity := (0, 0), radius := 20,
         color := (128, 0, 128) }]) ∧
    (mixPass
        [{ id := 1, position := (0, 0), velocity := (0, 0), radius := 1,
           color := (255, 0, 0) },
         { id := 2, position := (0, 0), velocity := (0, 0), radius := 1,
           color := (0, 0, 255) },
         { id := 3, position := (0, 0), velocity := (0, 0), radius := 1,
           color := (0, 255, 0) }] =
      [{ id := 1, position := (0, 0), velocity := (0, 0), radius := 1,
         color := (64, 128, 64) },
       { id := 2, position := (0, 0), velocity := (0, 0), radius := 1,
         color := (96, 64, 96) },
       { id := 3, position := (0, 0), velocity := (0, 0), radius := 1,
         color := (96, 64, 96) }]) := by
  refine ⟨mixPass_map_skel, ?_, ?_, ?_, ?_⟩
  · intro b1 b2 h1 h2 h3
    simp [mixPass, mixPassAux, mixOne, h1, h2, h3]
  · intro b1 b2 h
    rcases h with h | h <;> simp [mixPass, mixPassAux, mixOne, h]
  · norm_num [mixDemo, GameLogic.update, GameLogic.remove_balls_in_delete_zone,
      GameLogic.keep_ball_inside_bounds, Ball.move, mixPass, mixPassAux,
      mixOne, DeleteZone.contains, distance_sq, List.filter,
      mix_colors_rgb, avg, clamp]
    all_goals decide
  · have hd : distance_sq ((0 : ℚ), (0 : ℚ)) ((0 : ℚ), (0 : ℚ)) ≤
        ((1 : ℚ) + 1) * ((1 : ℚ) + 1) := by norm_num [distance_sq]
    simp only [mixPass, mixPassAux, mixOne, List.length_cons, List.length_nil,
      if_pos hd, Bool.or_self, Bool.false_eq_true, if_false]
    decide

theorem claim_C4_collision_mix_witness :
    mixPass
        [{ id := 1, position := (100, 100), velocity := (0, 0), radius := 20,
           color := (255, 0, 0) },
         { id := 2, position := (110, 100), velocity := (0, 0), radius := 20,
           color := (0, 0, 255) }] =
      [{ id := 1, position := (100, 100), velocity := (0, 0), radius := 20,
         color := mix_colors_rgb (255, 0, 0) (0, 0, 255) },
       { id := 2, position := (110, 100), velocity := (0, 0), radius := 20,
         color := mix_colors_rgb (255, 0, 0) (0, 0, 255) }] ∧
    mixPass
        [{ id := 3, position := (0, 0), velocity := (0, 0), radius := 20,
           color := (9, 9, 9), in_inventory := true },
         { id := 4, position := (0, 0), velocity := (0, 0), radius := 20,
           color := (7, 7, 7) }] =
      [{ id := 3, position := (0, 0), velocity := (0, 0), radius := 20,
         color := (9, 9, 9), in_inventory := true },
       { id := 4, position := (0, 0), velocity := (0, 0), radius := 20,
         color := (7, 7, 7) }] :=
  ⟨claim_C4_collision_mix.2.1 _ _ rfl rfl (by norm_num [distance_sq]),
   claim_C4_collision_mix.2.2.1 _ _ (Or.inl rfl)⟩

theorem suckLoop_moved_flags (mp : ℚ × ℚ) (rsq : ℚ) (mc : Option Int) :
    ∀ (snapshot world : List Ball) (inv : Inventory) (moved : List Ball),
    (∀ b ∈ moved, b.in_inventory = true) →
    ∀ b ∈ (suckLoop mp rsq mc snapshot world inv moved).2.2,
      b.in_inventory = true := by
  intro snapshot
  induction snapshot with
  | nil => intro world inv moved h; exact h
  | cons b rest ih =>
    intro world inv moved h
    simp only [suckLoop]
    split
    · exact h
    · split
      · refine ih _ _ _ ?_
        intro x hx
        rcases List.mem_append.mp hx with hx | hx
        · exact h x hx
        · simp only [List.mem_singleton] at hx
          subst hx; rfl
      · exact ih _ _ _ h

theorem suckLoop_length (mp : ℚ × ℚ) (rsq : ℚ) (mc : Option Int) :
    ∀ (snapshot world : List Ball) (inv : Inventory) (moved : List Ball),
    List.Sublist snapshot world →
    (suckLoop mp rsq mc snapshot world inv moved).1.length +
      (suckLoop mp rsq mc snapshot world inv moved).2.2.length =
      world.length + moved.length := by
  intro snapshot
  induction snapshot with
  | nil => intro world inv moved _; rfl
  | cons b rest ih =>
    intro world inv moved hs
    have hbw : b ∈ world := hs.subset (List.mem_cons_self b rest)
    simp only [suckLoop]
    split
    · rfl
    · split
      · have key := ih (world.erase b) (inv.add_ball b)
          (moved ++ [{ b with in_inventory := true }])
          (cons_sublist_erase hs)
        rw [key, List.length_erase_of_mem hbw, List.length_append]
        have : 1 ≤ world.length := List.length_pos_of_mem hbw
        simp only [List.length_singleton]
        omega
      · exact ih world inv moved ((List.sublist_cons_self b rest).trans hs)

theorem suckLoop_maxcount (mp : ℚ × ℚ) (rsq : ℚ) (m : Int) :
    ∀ (snapshot world : List Ball) (inv : Inventory) (moved : List Ball),
    (moved.length : Int) ≤ m →
    (((suckLoop mp rsq (some m) snapshot world inv moved).2.2.length : Int))
      ≤ m := by
  intro snapshot
  induction snapshot with
  | nil => intro world inv moved h; exact h
  | cons b rest ih =>
    intro world inv moved h
    simp only [suckLoop]
    split
    · exact h
    · next hcond =>
      have hlt : (moved.length : Int) < m := by
        simp only [decide_eq_true_eq] at hcond
        omega
      split
      · refine ih _ _ _ ?_
        rw [List.length_append, List.length_singleton]
        push_cast
        omega
      · exact ih _ _ _ h

/-- The suction range test, as a Boolean predicate on balls. -/
def inRange (mp : ℚ × ℚ) (rsq : ℚ) (b : Ball) : Bool :=
  decide (distance_sq b.position mp ≤ rsq)

theorem suckLoop_none_spec (mp : ℚ × ℚ) (rsq : ℚ) :
    ∀ (snapshot P : List Ball) (inv : Inventory) (moved : List Ball),
    (∀ x ∈ P, ¬ distance_sq x.position mp ≤ rsq) →
    suckLoop mp rsq none snapshot (P ++ snapshot) inv moved =
      (P ++ snapshot.filter (fun b => !(inRange mp rsq b)),
       ⟨inv.balls ++ (snapshot.filter (inRange mp rsq)).map
          (fun b => { b with in_inventory := true })⟩,
       moved ++ (snapshot.filter (inRange mp rsq)).map
          (fun b => { b with in_inventory := true })) := by
  intro snapshot
  induction snapshot with
  | nil =>
    intro P inv moved _
    simp [suckLoop]
  | cons b rest ih =>
    intro P inv moved hP
    by_cases hb : distance_sq b.position mp ≤ rsq
    · have hbP : b ∉ P := fun hmem => hP b hmem hb
      have herase : (P ++ b :: rest).erase b = P ++ rest := by
        rw [List.erase_append_right _ hbP, List.erase_cons_head]
      simp only [suckLoop, if_pos hb, herase, Bool.false_eq_true, if_false]
      refine (ih P (inv.add_ball b)
        (moved ++ [{ b with in_inventory := true }]) hP).trans ?_
      simp [inRange, hb, List.filter_cons, Inventory.add_ball,
        List.append_assoc]
    · have hP' : ∀ x ∈ P ++ [b], ¬ distance_sq x.position mp ≤ rsq := by
        intro x hx
        rcases List.mem_append.mp hx with hx | hx
        · exact hP x hx
        · simp only [List.mem_singleton] at hx
          subst hx; exact hb
      simp only [suckLoop, if_neg hb, Bool.false_eq_true, if_false]
      rw [show P ++ b :: rest = (P ++ [b]) ++ rest by simp]
      refine (ih (P ++ [b]) inv moved hP').trans ?_
      simp [inRange, hb, List.filter_cons, List.append_assoc]

theorem suckLoop_moved_not_in_world (mp : ℚ × ℚ) (rsq : ℚ) (mc : Option Int) :
    ∀ (snapshot world : List Ball) (inv : Inventory) (moved : List Ball),
    List.Sublist snapshot world →
    (world.map Ball.id).Nodup →
    (∀ x ∈ moved, x.id ∉ world.map Ball.id) →
    ∀ x ∈ (suckLoop mp rsq mc snapshot world inv moved).2.2,
      x.id ∉ ((suckLoop mp rsq mc snapshot world inv moved).1.map Ball.id) := by
  intro snapshot
  induction snapshot with
  | nil => intro world inv moved _ _ hmoved; exact hmoved
  | cons b rest ih =>
    intro world inv moved hs hnd hmoved
    have hbw : b ∈ world := hs.subset (List.mem_cons_self b rest)
    simp only [suckLoop]
    split
    · exact hmoved
    · split
      · have hsub : List.Sublist ((world.erase b).map Ball.id)
            (world.map Ball.id) := (List.erase_sublist b world).map Ball.id
        have pw : List.Perm (world.map Ball.id)
            (b.id :: (world.erase b).map Ball.id) :=
          (List.perm_cons_erase hbw).map Ball.id
        have hnd' : (b.id :: (world.erase b).map Ball.id).Nodup :=
          pw.nodup_iff.mp hnd
        refine ih (world.erase b) (inv.add_ball b)
          (moved ++ [{ b with in_inventory := true }])
          (cons_sublist_erase hs) (hnd.sublist hsub) ?_
        intro x hx
        rcases List.mem_append.mp hx with hx | hx
        · exact fun hmem => hmoved x hx (hsub.subset hmem)
        · simp only [List.mem_singleton] at hx
          subst hx
          exact (List.nodup_cons.mp hnd').1
      · exact ih world inv moved
          ((List.sublist_cons_self b rest).trans hs) hnd hmoved

/-- C7: with no `maxCount`, suction moves exactly the in-range balls, in
encounter order (world keeps exactly the out-of-range balls, in order,
and the moved balls are appended to the inventory tail); every returned
ball is flagged `in_inventory`; world size always decreases by exactly
the number returned; under distinct ids no returned ball is still in the
world; with `maxCount = m ≥ 0` at most `m` balls are moved; omitting the
radius behaves as passing `mouse_suck_radius`, whose fresh-engine default
is 80. -/
theorem claim_C7_suck_balls :
    (∀ (g : GameLogic) (mp : ℚ × ℚ) (rad : Option ℚ),
      g.suck_balls_with_mouse mp rad none =
        ({ g with
            balls := g.balls.filter (fun b =>
              !(inRange mp ((rad.getD g.mouse_suck_radius) *
                (rad.getD g.mouse_suck_radius)) b)),
            inventory := ⟨g.inventory.balls ++
              (g.balls.filter (inRange mp ((rad.getD g.mouse_suck_radius) *
                (rad.getD g.mouse_suck_radius)))).map
                (fun b => { b with in_inventory := true })⟩ },
         (g.balls.filter (inRange mp ((rad.getD g.mouse_suck_radius) *
            (rad.getD g.mouse_suck_radius)))).map
            (fun b => { b with in_inventory := true }))) ∧
    (∀ (g : GameLogic) (mp : ℚ × ℚ) (rad : Option ℚ) (mc : Option Int),
      ∀ b ∈ (g.suck_balls_with_mouse mp rad mc).2, b.in_inventory = true) ∧
    (∀ (g : GameLogic) (mp : ℚ × ℚ) (rad : Option ℚ) (mc : Option Int),
      (g.suck_balls_with_mouse mp rad mc).1.balls.length +
        (g.suck_balls_with_mouse mp rad mc).2.length = g.balls.length) ∧
    (∀ (g : GameLogic) (mp : ℚ × ℚ) (rad : Option ℚ) (mc : Option Int),
      (g.balls.map Ball.id).Nodup →
      ∀ b ∈ (g.suck_balls_with_mouse mp rad mc).2,
        b.id ∉ (g.suck_balls_with_mouse mp rad mc).1.balls.map Ball.id) ∧
    (∀ (g : GameLogic) (mp : ℚ × ℚ) (rad : Option ℚ) (m : Int), 0 ≤ m →
      (((g.suck_balls_with_mouse mp rad (some m)).2.length : Int)) ≤ m) ∧
    (∀ (g : GameLogic) (mp : ℚ × ℚ) (mc : Option Int),
      g.suck_balls_with_mouse mp none mc =
        g.suck_balls_with_mouse mp (some g.mouse_suck_radius) mc) ∧
    (∀ (w h : ℚ) (dz : DeleteZone),
      ({ width := w, height := h, delete_zone := dz } :
        GameLogic).mouse_suck_radius = 80) := by
  refine ⟨?_, ?_, ?_, ?_, ?_, fun g mp mc => rfl, fun w h dz => rfl⟩
  · intro g mp rad
    have key := suckLoop_none_spec mp
      ((rad.getD g.mouse_suck_radius) * (rad.getD g.mouse_suck_radius))
      g.balls [] g.inventory []
      (fun x hx => absurd hx (List.not_mem_nil x))
    simp only [List.nil_append] at key
    simp only [GameLogic.suck_balls_with_mouse, key]
  · intro g mp rad mc b hb
    exact suckLoop_moved_flags mp _ mc g.balls g.balls g.inventory []
      (fun x hx => absurd hx (List.not_mem_nil x)) b hb
  · intro g mp rad mc
    have key := suckLoop_length mp
      ((rad.getD g.mouse_suck_radius) * (rad.getD g.mouse_suck_radius)) mc
      g.balls g.balls g.inventory [] (List.Sublist.refl _)
    simpa [GameLogic.suck_balls_with_mouse] using key
  · intro g mp rad mc hnd b hb
    exact suckLoop_moved_not_in_world mp _ mc g.balls g.balls g.inventory []
      (List.Sublist.refl _) hnd
      (fun x hx => absurd hx (List.not_mem_nil x)) b hb
  · intro g mp rad m hm
    have key := suckLoop_maxcount mp
      ((rad.getD g.mouse_suck_radius) * (rad.getD g.mouse_suck_radius)) m
      g.balls g.balls g.inventory [] (by simpa using hm)
    simpa [GameLogic.suck_balls_with_mouse] using key

/-- Engine state with two world balls of distinct ids, one near the
mouse point, used to instantiate the suction properties. -/
def suckDemo : GameLogic :=
  { width := 800, height := 600, delete_zone := ⟨500, 500, 600, 600⟩,
    balls := [{ id := 1, position := (100, 100), velocity := (0, 0),
                radius := 5, color := (1, 2, 3) },
              { id := 2, position := (300, 300), velocity := (0, 0),
                radius := 5, color := (4, 5, 6) }] }

theorem claim_C7_suck_balls_witness :
    (∀ b ∈ (suckDemo.suck_balls_with_mouse (100, 100) none none).2,
      b.id ∉ (suckDemo.suck_balls_with_mouse
        (100, 100) none none).1.balls.map Ball.id) ∧
    (((suckDemo.suck_balls_with_mouse
        (100, 100) none (some 1)).2.length : Int)) ≤ 1 :=
  ⟨claim_C7_suck_balls.2.2.2.1 suckDemo (100, 100) none none (by decide),
   claim_C7_suck_balls.2.2.2.2.1 suckDemo (100, 100) none 1 (by norm_num)⟩

/-- C10: because membership is decided by comparing squared distance with
`radius * radius`, a negative radius is accepted and the whole call —
moved balls, returned list and final state — is identical to the call
with the absolute value of the radius. -/
theorem claim_C10_negative_radius (g : GameLogic) (mp : ℚ × ℚ)
    (mc : Option Int) (r : ℚ) :
    g.suck_balls_with_mouse mp (some r) mc =
      g.suck_balls_with_mouse mp (some |r|) mc := by
  simp only [GameLogic.suck_balls_with_mouse, Option.getD_some]
  rw [abs_mul_abs_self]

theorem ratSqrt_mul_self (L : ℚ) (h : 0 ≤ L) : ratSqrt (L * L) = L := by
  obtain ⟨n, hn⟩ := Int.eq_ofNat_of_zero_le (Rat.num_nonneg.mpr h)
  unfold ratSqrt
  rw [Rat.mul_self_num L, Rat.mul_self_den L, hn]
  have htoNat : (((n : Int) * (n : Int)).toNat) = n * n := by
    rw [show ((n : Int) * (n : Int)) = ((n * n : Nat) : Int) by push_cast; ring]
    exact Int.toNat_ofNat _
  rw [htoNat, Nat.sqrt_eq n, Nat.sqrt_eq L.den]
  have : ((n : ℚ)) = ((L.num : ℚ)) := by rw [hn]; push_cast; ring
  rw [this, Rat.num_div_den]

theorem hypotQ_of_sq (dx dy L : ℚ) (h0 : 0 ≤ L)
    (hL : L * L = dx * dx + dy * dy) : hypotQ dx dy = L := by
  unfold hypotQ
  rw [← hL]
  exact ratSqrt_mul_self L h0

/-- C8: a successful emission puts the selected ball — the specified one
when given and present, otherwise the inventory tail — at the mouse
position with `in_inventory` cleared, appended to the world, with
velocity equal to the computed unit direction times the speed (the
engine default 300 when no speed is given); the unit direction is
`(0, −1)` when no direction is given or the direction is the zero
vector, and the direction divided by its (exact) norm otherwise. -/
theorem claim_C8_spit_success :
    (∀ (g : GameLogic) (mp : ℚ × ℚ) (dir : Option (ℚ × ℚ)) (sp : Option ℚ)
        (b : Ball), b ∈ g.inventory.balls →
      (g.spit_ball_from_inventory mp dir sp (some b)).2 =
          some { b with
                 position := mp,
                 velocity :=
                   ((spitDirection dir).1 * sp.getD g.default_spit_speed,
                    (spitDirection dir).2 * sp.getD g.default_spit_speed),
                 in_inventory := false } ∧
        (g.spit_ball_from_inventory mp dir sp (some b)).1.balls =
          g.balls ++
            [{ b with
               position := mp,
               velocity :=
                 ((spitDirection dir).1 * sp.getD g.default_spit_speed,
                  (spitDirection dir).2 * sp.getD g.default_spit_speed),
               in_inventory := false }] ∧
        (g.spit_ball_from_inventory mp dir sp (some b)).1.inventory.balls =
          g.inventory.balls.erase b) ∧
    (∀ (g : GameLogic) (mp : ℚ × ℚ) (dir : Option (ℚ × ℚ)) (sp : Option ℚ)
        (lb : Ball), g.inventory.balls.getLast? = some lb →
      (g.spit_ball_from_inventory mp dir sp none).2 =
          some { lb with
                 position := mp,
                 velocity :=
                   ((spitDirection dir).1 * sp.getD g.default_spit_speed,
                    (spitDirection dir).2 * sp.getD g.default_spit_speed),
                 in_inventory := false } ∧
        (g.spit_ball_from_inventory mp dir sp none).1.inventory.balls =
          g.inventory.balls.dropLast) ∧
    (spitDirection none = (0, -1)) ∧
    (∀ d : ℚ × ℚ, d = (0, 0) → spitDirection (some d) = (0, -1)) ∧
    (∀ (dx dy L : ℚ), 0 ≤ L → L * L = dx * dx + dy * dy →
      ¬(dx = 0 ∧ dy = 0) → spitDirection (some (dx, dy)) = (dx / L, dy / L)) ∧
    (∀ (w h : ℚ) (dz : DeleteZone),
      ({ width := w, height := h, delete_zone := dz } :
        GameLogic).default_spit_speed = 300) := by
  refine ⟨?_, ?_, rfl, ?_, ?_, fun w h dz => rfl⟩
  · intro g mp dir sp b hmem
    refine ⟨?_, ?_, ?_⟩ <;>
      simp [GameLogic.spit_ball_from_inventory, hmem]
  · intro g mp dir sp lb heq
    refine ⟨?_, ?_⟩ <;>
      simp [GameLogic.spit_ball_from_inventory, Inventory.pop_last, heq]
  · intro d h
    subst h
    simp [spitDirection, hypotQ, ratSqrt]
  · intro dx dy L h0 hL hne
    have hLval : hypotQ dx dy = L := hypotQ_of_sq dx dy L h0 hL
    have hLne : L ≠ 0 := by
      intro h
      rw [h] at hL
      exact hne ⟨by nlinarith, by nlinarith⟩
    simp [spitDirection, hLval, hLne]

/-- C9: spitting from an empty inventory with no ball specified, or
specifying a ball that is not in the inventory, returns `none` and leaves
the engine state (world, inventory and every ball) entirely unchanged. -/
theorem claim_C9_spit_noop :
    (∀ (g : GameLogic) (mp : ℚ × ℚ) (dir : Option (ℚ × ℚ)) (sp : Option ℚ),
      g.inventory.balls = [] →
      g.spit_ball_from_inventory mp dir sp none = (g, none)) ∧
    (∀ (g : GameLogic) (mp : ℚ × ℚ) (dir : Option (ℚ × ℚ)) (sp : Option ℚ)
        (b : Ball), b ∉ g.inventory.balls →
      g.spit_ball_from_inventory mp dir sp (some b) = (g, none)) := by
  constructor
  · intro g mp dir sp h
    simp [GameLogic.spit_ball_from_inventory, Inventory.pop_last, h]
  · intro g mp dir sp b h
    simp [GameLogic.spit_ball_from_inventory, h]

/-- Engine state with a single inventory ball, used to instantiate the
emission properties. -/
def spitDemo : GameLogic :=
  { width := 800, height := 600, delete_zone := ⟨500, 500, 600, 600⟩,
    inventory := ⟨[{ id := 1, position := (0, 0), velocity := (0, 0),
                     radius := 5, color := (1, 2, 3),
                     in_inventory := true }]⟩ }

theorem claim_C8_spit_success_witness :
    spitDirection (some (1, 0)) = (1 / 1, 0 / 1) ∧
    (spitDemo.spit_ball_from_inventory (400, 300) (some (1, 0)) none
        (some { id := 1, position := (0, 0), velocity := (0, 0), radius := 5,
                color := (1, 2, 3), in_inventory := true })).2 =
      some { id := 1, position := (400, 300),
             velocity :=
               ((spitDirection (some (1, 0))).1 *
                  (none : Option ℚ).getD spitDemo.default_spit_speed,
                (spitDirection (some (1, 0))).2 *
                  (none : Option ℚ).getD spitDemo.default_spit_speed),
             radius := 5, color := (1, 2, 3), in_inventory := false } :=
  ⟨claim_C8_spit_success.2.2.2.2.1 1 0 1 (by norm_num) (by norm_num)
      (by norm_num),
   (claim_C8_spit_success.1 spitDemo (400, 300) (some (1, 0)) none _
      (by decide)).1⟩

theorem claim_C9_spit_noop_witness :
    (({ width := 800, height := 600, delete_zone := ⟨0, 0, 100, 100⟩ } :
        GameLogic).spit_ball_from_inventory (10, 10) none none none =
      ({ width := 800, height := 600, delete_zone := ⟨0, 0, 100, 100⟩ },
        none)) ∧
    (({ width := 800, height := 600, delete_zone := ⟨0, 0, 100, 100⟩ } :
        GameLogic).spit_ball_from_inventory (10, 10) none none
        (some { id := 7, position := (0, 0), velocity := (0, 0), radius := 5,
                color := (1, 2, 3), in_inventory := true }) =
      ({ width := 800, height := 600, delete_zone := ⟨0, 0, 100, 100⟩ },
        none)) :=
  ⟨claim_C9_spit_noop.1 _ (10, 10) none none rfl,
   claim_C9_spit_noop.2 _ (10, 10) none none _ (by decide)⟩
